import Mathlib

/-!
Shallow embedding of the dpdk_ring repository (src/rte_common.h and
src/rte_ring.cc) together with theorems checking the natural-language
specification against it.

Machine integers: C `unsigned` (uint32_t) values are Nat reduced modulo
2^32 exactly where the C arithmetic can wrap; `ssize_t` results are Int.
The header rte_ring.h is not part of the excerpt: its numeric constants,
the struct layout and the enqueue/dequeue operations are modelled from the
spec, each marked `Modelled from the spec:` in its doc comment.
-/

/-- The modulus of C `unsigned` (uint32_t) arithmetic, 2^32. -/
def U32 : Nat := 4294967296

/-- The errno value EINVAL (22); rte_ring.cc returns -EINVAL on invalid sizes. -/
def EINVAL : Int := 22

/-- RTE_CACHE_LINE_SIZE from src/rte_common.h (64 bytes). -/
def RTE_CACHE_LINE_SIZE : Nat := 64

/-- Modelled from the spec: the `SingleProducer` flag bit. rte_ring.h is absent
from the excerpt; the DPDK family value RING_F_SP_ENQ = 0x1 is used. -/
def RING_F_SP_ENQ : Nat := 1

/-- Modelled from the spec: the `SingleConsumer` flag bit. rte_ring.h is absent
from the excerpt; the DPDK family value RING_F_SC_DEQ = 0x2 is used. -/
def RING_F_SC_DEQ : Nat := 2

/-- Modelled from the spec: the `ExactSize` flag bit. rte_ring.h is absent
from the excerpt; the DPDK family value RING_F_EXACT_SZ = 0x4 is used. -/
def RING_F_EXACT_SZ : Nat := 4

/-- Modelled from the spec: the maximum representable ring size mask.
rte_ring.h is absent from the excerpt; the DPDK family value 0x7fffffff is
used. -/
def RTE_RING_SZ_MASK : Nat := 2147483647

/-- POWEROF2 from src/rte_common.h: `(((x)-1) & (x)) == 0`, with the
subtraction performed in C `unsigned` arithmetic (so POWEROF2(0) is true:
0xffffffff & 0 == 0). -/
def POWEROF2 (x : Nat) : Bool := (((x + U32 - 1) % U32) &&& x) == 0

/-- RTE_ALIGN_FLOOR from src/rte_common.h: `val & ~(align - 1)`, the bitwise
complement taken at the 64-bit width of the ssize_t values it is applied to. -/
def RTE_ALIGN_FLOOR (val align : Nat) : Nat := val &&& (2 ^ 64 - align)

/-- RTE_ALIGN_CEIL from src/rte_common.h. -/
def RTE_ALIGN_CEIL (val align : Nat) : Nat := RTE_ALIGN_FLOOR (val + (align - 1)) align

/-- RTE_ALIGN from src/rte_common.h (same as RTE_ALIGN_CEIL). -/
def RTE_ALIGN (val align : Nat) : Nat := RTE_ALIGN_CEIL val align

/-- rte_combine32ms1b from src/rte_common.h: propagates the most significant
set bit of x into every lower position. -/
def rte_combine32ms1b (x : Nat) : Nat :=
  let x1 := x ||| (x >>> 1)
  let x2 := x1 ||| (x1 >>> 2)
  let x3 := x2 ||| (x2 >>> 4)
  let x4 := x3 ||| (x3 >>> 8)
  x4 ||| (x4 >>> 16)

/-- rte_align32pow2 from src/rte_common.h: `x--; x = rte_combine32ms1b(x);
return x + 1;` in uint32 arithmetic (the decrement and increment wrap). -/
def rte_align32pow2 (x : Nat) : Nat :=
  (rte_combine32ms1b ((x + U32 - 1) % U32) + 1) % U32

/-- Modelled from the spec: one side's CursorPair (struct rte_ring_headtail of
the missing rte_ring.h): head and tail counters plus the single-mode field
(__IS_SP / __IS_SC modelled as true, __IS_MP / __IS_MC as false). -/
structure rte_ring_headtail where
  head : Nat
  tail : Nat
  single : Bool

/-- The metadata fields of struct rte_ring (declared in the missing rte_ring.h,
written by rte_ring_init in src/rte_ring.cc): flags, size, mask, capacity and
the producer/consumer cursor pairs. -/
structure rte_ring where
  flags : Nat
  size : Nat
  mask : Nat
  capacity : Nat
  prod : rte_ring_headtail
  cons : rte_ring_headtail

/-- The all-zero ring contents produced by `memset(r, 0, sizeof(*r))`. -/
def memset_zero : rte_ring :=
  { flags := 0, size := 0, mask := 0, capacity := 0,
    prod := ⟨0, 0, false⟩, cons := ⟨0, 0, false⟩ }

/-- rte_ring_get_memsize from src/rte_ring.cc. `hdr` stands for
sizeof(struct rte_ring), declared in the missing rte_ring.h (the
RTE_BUILD_BUG_ON in rte_ring_init pins it to a multiple of the cache line);
sizeof(void *) is 8 on the 64-bit target. Returns -EINVAL or the byte size. -/
def rte_ring_get_memsize (hdr count : Nat) : Int :=
  if (POWEROF2 count = false) ∨ RTE_RING_SZ_MASK < count then -EINVAL
  else ((RTE_ALIGN (hdr + count * 8) RTE_CACHE_LINE_SIZE : Nat) : Int)

/-- rte_ring_init from src/rte_ring.cc. The argument `r` is the caller's block;
the function starts with `memset(r, 0, sizeof(*r))`, so its prior contents are
discarded. Returns the C return value (0 or -EINVAL) and the resulting block
contents. -/
def rte_ring_init (r : rte_ring) (count flags : Nat) : Int × rte_ring :=
  let r := memset_zero
  let r := { r with flags := flags,
                    prod := { r.prod with single := flags &&& RING_F_SP_ENQ != 0 },
                    cons := { r.cons with single := flags &&& RING_F_SC_DEQ != 0 } }
  if flags &&& RING_F_EXACT_SZ != 0 then
    let r := { r with size := rte_align32pow2 ((count + 1) % U32) }
    let r := { r with mask := (r.size + U32 - 1) % U32 }
    let r := { r with capacity := count }
    let r := { r with prod := { r.prod with head := 0, tail := 0 },
                      cons := { r.cons with head := 0, tail := 0 } }
    (0, r)
  else
    if (POWEROF2 count = false) ∨ RTE_RING_SZ_MASK < count then
      (-EINVAL, r)
    else
      let r := { r with size := count }
      let r := { r with mask := (count + U32 - 1) % U32 }
      let r := { r with capacity := r.mask }
      let r := { r with prod := { r.prod with head := 0, tail := 0 },
                        cons := { r.cons with head := 0, tail := 0 } }
      (0, r)

/-- rte_ring_create from src/rte_ring.cc. The allocator my_malloc is a
collaborator outside the core; it is modelled as always handing back a block
(allocation failure is the collaborator's OutOfMemory, not decided here).
Returns the allocated byte count together with the initialized ring, or none
when rte_ring_get_memsize or rte_ring_init rejects the parameters. -/
def rte_ring_create (hdr count flags : Nat) : Option (Nat × rte_ring) :=
  let requested_count := count
  let count := if flags &&& RING_F_EXACT_SZ != 0
               then rte_align32pow2 ((count + 1) % U32) else count
  let ring_size := rte_ring_get_memsize hdr count
  if ring_size < 0 then none
  else
    let res := rte_ring_init memset_zero requested_count flags
    if res.1 != 0 then none
    else some (ring_size.toNat, res.2)

/-- rte_ring_free from src/rte_ring.cc. The pointer argument is modelled as an
Option (none = NULL); the collaborator my_free is modelled as consing the freed
block onto a log of freed blocks, so an unchanged log means no action. -/
def rte_ring_free (r : Option rte_ring) (freed : List rte_ring) : List rte_ring :=
  match r with
  | none => freed
  | some ring => ring :: freed

/-- One smearing step: if y's bits collect x's bits shifted down by 0..m-1,
then (y ||| y >>> m)'s bits collect x's bits shifted down by 0..2m-1. -/
lemma testBit_or_shift (x y m : Nat)
    (h : ∀ i, y.testBit i = true ↔ ∃ s < m, x.testBit (i + s) = true) :
    ∀ i, (y ||| (y >>> m)).testBit i = true ↔
      ∃ s < 2 * m, x.testBit (i + s) = true := by
  intro i
  rw [Nat.testBit_lor, Nat.testBit_shiftRight, Bool.or_eq_true, h i, h (m + i)]
  constructor
  · rintro (⟨s, hs, hb⟩ | ⟨s, hs, hb⟩)
    · exact ⟨s, by omega, hb⟩
    · exact ⟨m + s, by omega, by rw [show i + (m + s) = m + i + s by omega]; exact hb⟩
  · rintro ⟨s, hs, hb⟩
    by_cases hsm : s < m
    · exact Or.inl ⟨s, hsm, hb⟩
    · exact Or.inr ⟨s - m, by omega,
        by rw [show m + i + (s - m) = i + s by omega]; exact hb⟩

/-- Bit characterization of rte_combine32ms1b: bit i of the result is set
exactly when some bit of the input in positions i..i+31 is set. -/
lemma testBit_combine32ms1b (x : Nat) :
    ∀ i, (rte_combine32ms1b x).testBit i = true ↔
      ∃ s < 32, x.testBit (i + s) = true := by
  have h0 : ∀ i, x.testBit i = true ↔ ∃ s < 1, x.testBit (i + s) = true := by
    intro i
    constructor
    · intro h
      exact ⟨0, Nat.zero_lt_one, by rw [Nat.add_zero]; exact h⟩
    · rintro ⟨s, hs, hb⟩
      have hs0 : s = 0 := Nat.lt_one_iff.mp hs
      subst hs0
      rw [Nat.add_zero] at hb
      exact hb
  have h1 := testBit_or_shift x x 1 h0
  have h2 := testBit_or_shift x _ 2 h1
  have h4 := testBit_or_shift x _ 4 h2
  have h8 := testBit_or_shift x _ 8 h4
  exact testBit_or_shift x _ 16 h8

/-- A number between consecutive powers of two has the corresponding bit set. -/
lemma testBit_of_bounds {y s : Nat} (h1 : 2 ^ s ≤ y) (h2 : y < 2 ^ (s + 1)) :
    y.testBit s = true := by
  rw [Nat.testBit_to_div_mod]
  have hpos : 0 < 2 ^ s := Nat.two_pow_pos s
  have hge : 1 ≤ y / 2 ^ s := (Nat.one_le_div_iff hpos).mpr h1
  have hlt : y / 2 ^ s < 2 := (Nat.div_lt_iff_lt_mul hpos).mpr (by
    have hpow : 2 ^ s * 2 = 2 ^ (s + 1) := by rw [Nat.pow_succ]
    omega)
  have : y / 2 ^ s = 1 := by omega
  simp [this]

/-- The most significant bit of a positive number is set. -/
lemma testBit_size_sub_one {x : Nat} (hx : 0 < x) :
    x.testBit (x.size - 1) = true := by
  have hsz : 1 ≤ x.size := by
    rw [Nat.one_le_iff_ne_zero, Ne, Nat.size_eq_zero]
    omega
  have h1 : 2 ^ (x.size - 1) ≤ x := Nat.lt_size.mp (by omega)
  have h2 : x < 2 ^ (x.size - 1 + 1) := by
    rw [show x.size - 1 + 1 = x.size by omega]
    exact Nat.lt_size_self x
  exact testBit_of_bounds h1 h2

/-- rte_combine32ms1b fills every bit below the most significant set bit. -/
lemma rte_combine32ms1b_eq {x : Nat} (hx : 0 < x) (hx32 : x < 2 ^ 32) :
    rte_combine32ms1b x = 2 ^ x.size - 1 := by
  apply Nat.eq_of_testBit_eq
  intro i
  have hsize : x.size ≤ 32 := Nat.size_le.mpr hx32
  rw [Nat.testBit_two_pow_sub_one]
  by_cases hi : i < x.size
  · rw [decide_eq_true hi]
    apply (testBit_combine32ms1b x i).mpr
    refine ⟨x.size - 1 - i, by omega, ?_⟩
    rw [show i + (x.size - 1 - i) = x.size - 1 by omega]
    exact testBit_size_sub_one hx
  · rw [decide_eq_false hi]
    have hnone : ¬ ∃ s < 32, x.testBit (i + s) = true := by
      rintro ⟨s, hs, hb⟩
      have hge := Nat.testBit_implies_ge hb
      have hlt : x < 2 ^ (i + s) := lt_of_lt_of_le (Nat.lt_size_self x)
        (Nat.pow_le_pow_right (by norm_num)
          (le_trans (Nat.le_of_not_lt hi) (Nat.le_add_right i s)))
      exact absurd hge (not_le.mpr hlt)
    cases hb : (rte_combine32ms1b x).testBit i
    · rfl
    · exact absurd ((testBit_combine32ms1b x i).mp hb) hnone

/-- Decrementing in uint32 arithmetic: for positive x up to 2^32,
(x + 2^32 - 1) mod 2^32 is x - 1. -/
lemma pred_mod_U32 {x : Nat} (h1 : 1 ≤ x) (h2 : x ≤ U32) :
    (x + U32 - 1) % U32 = x - 1 := by
  rw [show x + U32 - 1 = (x - 1) + U32 from Nat.sub_add_comm h1,
    Nat.add_mod_right]
  exact Nat.mod_eq_of_lt (lt_of_lt_of_le (Nat.sub_lt h1 Nat.one_pos) h2)

/-- Clearing the low mod-64 part of a value leaves 64 times its quotient. -/
lemma sub_mod_eq_mul_div (w : Nat) : w - w % 64 = 64 * (w / 64) :=
  Nat.sub_eq_of_eq_add (Nat.div_add_mod w 64).symm

/-- Rounding up to the next multiple of 64 does not decrease the value. -/
lemma le_align_sub (v : Nat) : v ≤ v + 63 - (v + 63) % 64 := by
  have h : (v + 63) % 64 < 64 := Nat.mod_lt _ (by norm_num)
  obtain ⟨m, hm, hlt⟩ : ∃ m, (v + 63) % 64 = m ∧ m < 64 := ⟨_, rfl, h⟩
  rw [hm]
  clear hm h
  omega

/-- For inputs in [1, 2^31], rte_align32pow2 computes 2 to the bit length of
x - 1, with no uint32 wraparound. -/
lemma rte_align32pow2_eq {x : Nat} (h1 : 1 ≤ x) (h2 : x ≤ 2147483648) :
    rte_align32pow2 x = 2 ^ (x - 1).size := by
  unfold rte_align32pow2
  have hpred : (x + U32 - 1) % U32 = x - 1 :=
    pred_mod_U32 h1 (le_trans h2 (by decide))
  rw [hpred]
  by_cases hx1 : x = 1
  · subst hx1
    simp only [Nat.sub_self, Nat.size_zero, pow_zero]
    decide
  · have hx0 : 0 < x - 1 := by omega
    have hx32 : x - 1 < 2 ^ 32 := by
      have : (2:Nat) ^ 32 = 4294967296 := by norm_num
      omega
    rw [rte_combine32ms1b_eq hx0 hx32]
    have hs : (x - 1).size ≤ 31 := Nat.size_le.mpr (by
      have : (2:Nat) ^ 31 = 2147483648 := by norm_num
      omega)
    have hle : 2 ^ (x - 1).size ≤ 2 ^ 31 := Nat.pow_le_pow_right (by norm_num) hs
    rw [Nat.sub_add_cancel (Nat.two_pow_pos _)]
    exact Nat.mod_eq_of_lt (lt_of_le_of_lt hle (by decide))

/-- Masking with a power of two minus one is reduction modulo that power. -/
lemma and_two_pow_sub_one (x m : Nat) : x &&& (2 ^ m - 1) = x % 2 ^ m := by
  apply Nat.eq_of_testBit_eq
  intro i
  rw [Nat.testBit_land, Nat.testBit_two_pow_sub_one, Nat.testBit_mod_two_pow,
    Bool.and_comm]

/-- The code's POWEROF2 test accepts exactly 0 and the powers of two. -/
lemma POWEROF2_iff {x : Nat} (hx : x < U32) :
    POWEROF2 x = true ↔ x = 0 ∨ ∃ k, x = 2 ^ k := by
  unfold POWEROF2
  by_cases hx0 : x = 0
  · subst hx0
    exact ⟨fun _ => Or.inl rfl, fun _ => by decide⟩
  · have hpred : (x + U32 - 1) % U32 = x - 1 :=
      pred_mod_U32 (Nat.one_le_iff_ne_zero.mpr hx0) (le_of_lt hx)
    rw [hpred, beq_iff_eq]
    clear hpred
    constructor
    · intro h
      refine Or.inr ⟨x.size - 1, ?_⟩
      by_contra hne
      have hxpos : 0 < x := Nat.pos_of_ne_zero hx0
      have hmsb := testBit_size_sub_one hxpos
      have hge : 2 ^ (x.size - 1) ≤ x := Nat.testBit_implies_ge hmsb
      have hgt : 2 ^ (x.size - 1) < x := lt_of_le_of_ne hge (fun he => hne he.symm)
      have hsz : 1 ≤ x.size := by
        rw [Nat.one_le_iff_ne_zero, Ne, Nat.size_eq_zero]
        exact hx0
      have hb1 : 2 ^ (x.size - 1) ≤ x - 1 := by omega
      have hb2 : x - 1 < 2 ^ (x.size - 1 + 1) := by
        have h2 := Nat.lt_size_self x
        rw [show x.size - 1 + 1 = x.size by omega]
        omega
      have hpredbit := testBit_of_bounds hb1 hb2
      have hland : ((x - 1) &&& x).testBit (x.size - 1) = true := by
        rw [Nat.testBit_land, hpredbit, hmsb]
        rfl
      rw [h] at hland
      simp [Nat.zero_testBit] at hland
    · rintro (h0 | ⟨k, hk⟩)
      · exact absurd h0 hx0
      · subst hk
        rw [Nat.land_comm, and_two_pow_sub_one, Nat.mod_self]

/-- RTE_ALIGN_FLOOR at alignment 64 rounds down to a multiple of 64 for every
value fitting ssize_t. -/
lemma RTE_ALIGN_FLOOR_64 {v : Nat} (hv : v < 2 ^ 64) :
    RTE_ALIGN_FLOOR v 64 = v - v % 64 := by
  unfold RTE_ALIGN_FLOOR
  apply Nat.eq_of_testBit_eq
  intro i
  rw [Nat.testBit_land]
  have hmask : (2:Nat) ^ 64 - 64 = (2 ^ 58 - 1) <<< 6 := by
    rw [Nat.shiftLeft_eq]
    norm_num
  have hrhs : v - v % 64 = (v >>> 6) <<< 6 := by
    rw [Nat.shiftLeft_eq, Nat.shiftRight_eq_div_pow,
      show (2:Nat) ^ 6 = 64 from by norm_num, sub_mod_eq_mul_div, Nat.mul_comm]
  rw [hmask, hrhs, Nat.testBit_shiftLeft, Nat.testBit_shiftLeft,
    Nat.testBit_two_pow_sub_one, Nat.testBit_shiftRight]
  by_cases h6 : i ≥ 6
  · rw [decide_eq_true h6, show 6 + (i - 6) = i by omega]
    by_cases h64i : i < 64
    · rw [decide_eq_true (show i - 6 < 58 by omega)]
      simp only [Bool.true_and, Bool.and_true]
    · have hbit : v.testBit i = false := Nat.testBit_lt_two_pow
        (lt_of_lt_of_le hv (Nat.pow_le_pow_right (by norm_num) (by omega)))
      rw [decide_eq_false (show ¬(i - 6 < 58) by omega), hbit]
      rfl
  · rw [decide_eq_false h6]
    simp only [Bool.false_and, Bool.and_false]

/-- RTE_ALIGN at alignment 64 rounds up to a multiple of 64 for every value
fitting ssize_t. -/
lemma RTE_ALIGN_64 {v : Nat} (hv : v + 63 < 2 ^ 64) :
    RTE_ALIGN v 64 = (v + 63) - (v + 63) % 64 := by
  unfold RTE_ALIGN RTE_ALIGN_CEIL
  rw [show (64 : Nat) - 1 = 63 by norm_num]
  exact RTE_ALIGN_FLOOR_64 hv

/-- Branch lemma: rte_ring_init in exact-size mode (never fails, no count
validation). -/
lemma rte_ring_init_exact (r : rte_ring) (count flags : Nat)
    (hex : flags &&& RING_F_EXACT_SZ ≠ 0) :
    rte_ring_init r count flags =
      (0, ⟨flags, rte_align32pow2 ((count + 1) % U32),
        (rte_align32pow2 ((count + 1) % U32) + U32 - 1) % U32, count,
        ⟨0, 0, flags &&& RING_F_SP_ENQ != 0⟩,
        ⟨0, 0, flags &&& RING_F_SC_DEQ != 0⟩⟩) := by
  simp only [rte_ring_init]
  rw [if_pos (show (flags &&& RING_F_EXACT_SZ != 0) = true by
    rw [bne_iff_ne]; exact hex)]

/-- Branch lemma: rte_ring_init in default mode on an accepted count. -/
lemma rte_ring_init_default (r : rte_ring) (count flags : Nat)
    (hex : flags &&& RING_F_EXACT_SZ = 0)
    (hok : ¬((POWEROF2 count = false) ∨ RTE_RING_SZ_MASK < count)) :
    rte_ring_init r count flags =
      (0, ⟨flags, count, (count + U32 - 1) % U32, (count + U32 - 1) % U32,
        ⟨0, 0, flags &&& RING_F_SP_ENQ != 0⟩,
        ⟨0, 0, flags &&& RING_F_SC_DEQ != 0⟩⟩) := by
  simp only [rte_ring_init]
  rw [if_neg (show ¬((flags &&& RING_F_EXACT_SZ != 0) = true) by
    rw [hex]; decide)]
  rw [if_neg hok]

/-- Branch lemma: rte_ring_init in default mode on a rejected count. -/
lemma rte_ring_init_fail (r : rte_ring) (count flags : Nat)
    (hex : flags &&& RING_F_EXACT_SZ = 0)
    (hbad : (POWEROF2 count = false) ∨ RTE_RING_SZ_MASK < count) :
    rte_ring_init r count flags =
      (-EINVAL, ⟨flags, 0, 0, 0,
        ⟨0, 0, flags &&& RING_F_SP_ENQ != 0⟩,
        ⟨0, 0, flags &&& RING_F_SC_DEQ != 0⟩⟩) := by
  simp only [rte_ring_init]
  rw [if_neg (show ¬((flags &&& RING_F_EXACT_SZ != 0) = true) by
    rw [hex]; decide)]
  rw [if_pos hbad]
  rfl

/-- Branch lemma: rte_ring_get_memsize on an accepted count. -/
lemma rte_ring_get_memsize_ok (hdr count : Nat)
    (hok : ¬((POWEROF2 count = false) ∨ RTE_RING_SZ_MASK < count)) :
    rte_ring_get_memsize hdr count =
      ((RTE_ALIGN (hdr + count * 8) RTE_CACHE_LINE_SIZE : Nat) : Int) := by
  unfold rte_ring_get_memsize
  rw [if_neg hok]

/-- Branch lemma: rte_ring_get_memsize on a rejected count. -/
lemma rte_ring_get_memsize_bad (hdr count : Nat)
    (hbad : (POWEROF2 count = false) ∨ RTE_RING_SZ_MASK < count) :
    rte_ring_get_memsize hdr count = -EINVAL := by
  unfold rte_ring_get_memsize
  rw [if_pos hbad]

/-- The tail of rte_ring_create after a successful rte_ring_init. -/
lemma init_guard_some (a : rte_ring) (n : Nat) :
    (if ((((0 : Int), a).1 != 0) = true) then (none : Option (Nat × rte_ring))
      else some (n, ((0 : Int), a).2)) = some (n, a) := rfl

/-- Modelled from the spec: the state of a Ring as the enqueue/dequeue
operations (absent from the excerpt, spec sections 4.3 to 4.6) see it: the
struct rte_ring metadata plus the slot array of `size` pointer-sized cells,
indexed by `counter & mask`. -/
structure RingState where
  r : rte_ring
  slots : Nat → Nat

/-- Modelled from the spec (section 3): unsigned 32-bit wraparound
subtraction, used for occupancy and free-space calculations. -/
def sub32 (a b : Nat) : Nat := (a % U32 + U32 - b % U32) % U32

/-- Wraparound subtraction of zero is the identity on uint32 values. -/
lemma sub32_zero_right {a : Nat} (h : a < U32) : sub32 a 0 = a := by
  unfold sub32
  rw [Nat.zero_mod, Nat.sub_zero, Nat.mod_eq_of_lt h, Nat.add_mod_right]
  exact Nat.mod_eq_of_lt h

/-- Modelled from the spec (sections 3 and 4.4): the slot array index for a
uint32 counter value is `counter & mask`. -/
def slotIndex (c mask : Nat) : Nat := (c % U32) &&& mask

/-- Modelled from the spec (section 4.4, enqueue data transfer): write the
items into the slot array at indices `(oldHead + k) & mask`. -/
def writeSlots (mask : Nat) : (Nat → Nat) → Nat → List Nat → (Nat → Nat)
  | slots, _, [] => slots
  | slots, head, v :: vs =>
      writeSlots mask (Function.update slots (slotIndex head mask) v) (head + 1) vs

/-- Modelled from the spec (section 4.4, dequeue data transfer): read n items
from the slot array at indices `(oldHead + k) & mask`. -/
def readSlots (slots : Nat → Nat) (mask head n : Nat) : List Nat :=
  (List.range n).map (fun k => slots (slotIndex (head + k) mask))

/-- Modelled from the spec (sections 4.3 to 4.6, single-threaded execution of
the fixed-count enqueue): snapshot `oldHead = producer.head` and
`tail = consumer.tail`, compute `freeEntries = capacity - (oldHead - tail)` in
uint32 arithmetic, fail with RingFull (none) when `freeEntries < n` with no
state change, else write the claimed range and advance producer head and tail
to `oldHead + n`. -/
def enqueueFixed (st : RingState) (items : List Nat) : Option RingState :=
  let oldHead := st.r.prod.head
  let tail := st.r.cons.tail
  let freeEntries := sub32 st.r.capacity (sub32 oldHead tail)
  if freeEntries < items.length then none
  else
    let newHead := (oldHead + items.length) % U32
    some { r := { st.r with prod := { st.r.prod with head := newHead, tail := newHead } },
           slots := writeSlots st.r.mask st.slots oldHead items }

/-- Modelled from the spec (sections 4.3 to 4.6, single-threaded execution of
the fixed-count dequeue): claims are bounded by `producer.tail` (published
data), fail with RingEmpty (none) when fewer than n entries are published,
else read the claimed range and advance consumer head and tail. -/
def dequeueFixed (st : RingState) (n : Nat) : Option (List Nat × RingState) :=
  let oldHead := st.r.cons.head
  let entries := sub32 st.r.prod.tail oldHead
  if entries < n then none
  else
    let newHead := (oldHead + n) % U32
    some (readSlots st.slots st.r.mask oldHead n,
      { st with r := { st.r with cons := { st.r.cons with head := newHead, tail := newHead } } })

/-- A freshly initialized well-formed ring state: backing size a power of two,
mask = size - 1 (so mask fits uint32), capacity at most mask, and all four
cursors zero, as rte_ring_init lays them out. -/
def freshRing (st : RingState) : Prop :=
  (∃ m, st.r.size = 2 ^ m) ∧ st.r.mask = st.r.size - 1 ∧
    st.r.capacity ≤ st.r.mask ∧ st.r.mask < U32 ∧
    st.r.prod.head = 0 ∧ st.r.prod.tail = 0 ∧
    st.r.cons.head = 0 ∧ st.r.cons.tail = 0

/-- C10: rte_ring_free called with a NULL pointer is a safe no-op: the
freed-blocks log comes back unchanged for every input state. -/
theorem C10_free_null_noop (freed : List rte_ring) :
    rte_ring_free none freed = freed := rfl

/-- C6: for every flags value, rte_ring_init puts the producer side in Single
mode exactly when RING_F_SP_ENQ is set and the consumer side in Single mode
exactly when RING_F_SC_DEQ is set (Single modelled as single = true, Multi as
single = false). -/
theorem C6_single_mode_flags (r : rte_ring) (count flags : Nat) :
    ((rte_ring_init r count flags).2.prod.single = true ↔
      flags &&& RING_F_SP_ENQ ≠ 0) ∧
    ((rte_ring_init r count flags).2.cons.single = true ↔
      flags &&& RING_F_SC_DEQ ≠ 0) := by
  by_cases hex : flags &&& RING_F_EXACT_SZ = 0
  · by_cases hc : (POWEROF2 count = false) ∨ RTE_RING_SZ_MASK < count
    · rw [rte_ring_init_fail r count flags hex hc]
      exact ⟨bne_iff_ne, bne_iff_ne⟩
    · rw [rte_ring_init_default r count flags hex hc]
      exact ⟨bne_iff_ne, bne_iff_ne⟩
  · rw [rte_ring_init_exact r count flags hex]
    exact ⟨bne_iff_ne, bne_iff_ne⟩

/-- C8: rte_ring_init zeroes the whole struct and writes the flags and
single-mode fields before validating the count, so a call that fails with
-EINVAL leaves the provided block zeroed with flags and modes set,
independent of the block's prior contents. -/
theorem C8_failed_init_leaves_zeroed (r : rte_ring) (count flags : Nat)
    (hfail : (rte_ring_init r count flags).1 = -EINVAL) :
    (rte_ring_init r count flags).2 =
      { flags := flags, size := 0, mask := 0, capacity := 0,
        prod := ⟨0, 0, flags &&& RING_F_SP_ENQ != 0⟩,
        cons := ⟨0, 0, flags &&& RING_F_SC_DEQ != 0⟩ } := by
  by_cases hex : flags &&& RING_F_EXACT_SZ = 0
  · by_cases hc : (POWEROF2 count = false) ∨ RTE_RING_SZ_MASK < count
    · rw [rte_ring_init_fail r count flags hex hc]
    · rw [rte_ring_init_default r count flags hex hc] at hfail
      norm_num [EINVAL] at hfail
  · rw [rte_ring_init_exact r count flags hex] at hfail
    norm_num [EINVAL] at hfail

/-- Witness for C8: a junk-filled block, count 3 (not a power of two),
flags 0. -/
theorem C8_witness :
    (rte_ring_init ⟨5, 6, 7, 8, ⟨9, 10, true⟩, ⟨11, 12, true⟩⟩ 3 0).1 = -EINVAL ∧
    (rte_ring_init ⟨5, 6, 7, 8, ⟨9, 10, true⟩, ⟨11, 12, true⟩⟩ 3 0).2 =
      { flags := 0, size := 0, mask := 0, capacity := 0,
        prod := ⟨0, 0, false⟩, cons := ⟨0, 0, false⟩ } := by
  refine ⟨by decide, ?_⟩
  rw [C8_failed_init_leaves_zeroed _ 3 0 (by decide)]
  rfl

/-- C5: for every power-of-two count within the size limit, with exact-size
mode unset, rte_ring_init returns 0 and lays out size = count,
mask = count - 1, capacity = size - 1, and zeroes all four cursors. -/
theorem C5_default_mode_layout (r : rte_ring) (count flags : Nat)
    (hpow : ∃ k, count = 2 ^ k) (hcount : count ≤ RTE_RING_SZ_MASK)
    (hflag : flags &&& RING_F_EXACT_SZ = 0) :
    (rte_ring_init r count flags).1 = 0 ∧
    (rte_ring_init r count flags).2.size = count ∧
    (rte_ring_init r count flags).2.mask = count - 1 ∧
    (rte_ring_init r count flags).2.capacity =
      (rte_ring_init r count flags).2.size - 1 ∧
    (rte_ring_init r count flags).2.prod.head = 0 ∧
    (rte_ring_init r count flags).2.prod.tail = 0 ∧
    (rte_ring_init r count flags).2.cons.head = 0 ∧
    (rte_ring_init r count flags).2.cons.tail = 0 := by
  have hlt : count < U32 := lt_of_le_of_lt hcount (by decide)
  have hP2 : POWEROF2 count = true := (POWEROF2_iff hlt).mpr (Or.inr hpow)
  obtain ⟨k, hk⟩ := hpow
  have hpos : 0 < count := hk ▸ Nat.two_pow_pos k
  have hm : (count + U32 - 1) % U32 = count - 1 :=
    pred_mod_U32 hpos (le_of_lt hlt)
  have hok : ¬((POWEROF2 count = false) ∨ RTE_RING_SZ_MASK < count) := by
    rintro (habs | habs)
    · rw [hP2] at habs
      exact Bool.noConfusion habs
    · omega
  have key : rte_ring_init r count flags =
      (0, ⟨flags, count, count - 1, count - 1,
        ⟨0, 0, flags &&& RING_F_SP_ENQ != 0⟩,
        ⟨0, 0, flags &&& RING_F_SC_DEQ != 0⟩⟩) := by
    rw [rte_ring_init_default r count flags hflag hok, hm]
  rw [key]
  exact ⟨rfl, rfl, rfl, rfl, rfl, rfl, rfl, rfl⟩

/-- Witness for C5 at count 8, flags 0. -/
theorem C5_witness :
    (8:Nat) ≤ RTE_RING_SZ_MASK ∧
    (rte_ring_init memset_zero 8 0).1 = 0 ∧
    (rte_ring_init memset_zero 8 0).2.size = 8 ∧
    (rte_ring_init memset_zero 8 0).2.mask = 8 - 1 ∧
    (rte_ring_init memset_zero 8 0).2.capacity =
      (rte_ring_init memset_zero 8 0).2.size - 1 :=
  ⟨by decide,
   (C5_default_mode_layout memset_zero 8 0 ⟨3, rfl⟩ (by decide) (by decide)).1,
   (C5_default_mode_layout memset_zero 8 0 ⟨3, rfl⟩ (by decide) (by decide)).2.1,
   (C5_default_mode_layout memset_zero 8 0 ⟨3, rfl⟩ (by decide) (by decide)).2.2.1,
   (C5_default_mode_layout memset_zero 8 0 ⟨3, rfl⟩ (by decide) (by decide)).2.2.2.1⟩

/-- The code's rejection condition, restated with the mathematical notion of
power of two: POWEROF2 also lets 0 through. -/
lemma memsize_cond_iff {count : Nat} (hcount : count < U32) :
    ((POWEROF2 count = false) ∨ RTE_RING_SZ_MASK < count) ↔
      ((count ≠ 0 ∧ ¬ ∃ k, count = 2 ^ k) ∨ RTE_RING_SZ_MASK < count) := by
  constructor
  · rintro (hf | hgt)
    · by_cases hz : count = 0 ∨ ∃ k, count = 2 ^ k
      · rw [(POWEROF2_iff hcount).mpr hz] at hf
        exact Bool.noConfusion hf
      · push_neg at hz
        exact Or.inl ⟨hz.1, fun ⟨k, hk⟩ => hz.2 k hk⟩
    · exact Or.inr hgt
  · rintro (⟨hne, hnp⟩ | hgt)
    · left
      cases hP : POWEROF2 count
      · rfl
      · rcases (POWEROF2_iff hcount).mp hP with h0 | hp
        · exact absurd h0 hne
        · exact absurd hp hnp
    · exact Or.inr hgt

/-- C2 counterexample: requestedCount 0 is not a power of two, yet
rte_ring_get_memsize does not fail on it (the code's POWEROF2(0) is true), so
the claimed "exactly when not a power of two or above the mask" is false. -/
theorem C2_counterexample :
    (¬ ∃ k, (0:Nat) = 2 ^ k) ∧ (0:Nat) ≤ RTE_RING_SZ_MASK ∧
    rte_ring_get_memsize 192 0 ≠ -EINVAL := by
  refine ⟨?_, by decide, by decide⟩
  rintro ⟨k, hk⟩
  exact (Nat.two_pow_pos k).ne' hk.symm

/-- C2 (amended): for counts in uint32 range, rte_ring_get_memsize returns
-EINVAL exactly when the count is neither zero nor a power of two, or exceeds
RTE_RING_SZ_MASK (the code's POWEROF2 classifies 0 as a power of two);
otherwise it returns a nonnegative byte size. -/
theorem C2_memsize_invalid_iff (hdr count : Nat) (hcount : count < U32) :
    (rte_ring_get_memsize hdr count = -EINVAL ↔
      (count ≠ 0 ∧ ¬ ∃ k, count = 2 ^ k) ∨ RTE_RING_SZ_MASK < count) ∧
    (rte_ring_get_memsize hdr count ≠ -EINVAL →
      0 ≤ rte_ring_get_memsize hdr count) := by
  constructor
  · rw [← memsize_cond_iff hcount]
    unfold rte_ring_get_memsize
    by_cases hc : (POWEROF2 count = false) ∨ RTE_RING_SZ_MASK < count
    · rw [if_pos hc]
      exact ⟨fun _ => hc, fun _ => rfl⟩
    · rw [if_neg hc]
      refine ⟨fun habs => ?_, fun h => absurd h hc⟩
      rw [show -EINVAL = (-22:Int) from rfl] at habs
      omega
  · intro h
    unfold rte_ring_get_memsize at h ⊢
    by_cases hc : (POWEROF2 count = false) ∨ RTE_RING_SZ_MASK < count
    · rw [if_pos hc] at h
      exact absurd rfl h
    · rw [if_neg hc]
      exact Int.natCast_nonneg _

/-- Witness for C2 (amended) at hdr 192, count 0: the call does not fail. -/
theorem C2_witness :
    (0:Nat) < U32 ∧ ¬ rte_ring_get_memsize 192 0 = -EINVAL := by
  refine ⟨by decide, fun h => ?_⟩
  rcases (C2_memsize_invalid_iff 192 0 (by decide)).1.mp h with ⟨hne, -⟩ | hgt
  · exact hne rfl
  · exact absurd hgt (by decide)

/-- C3 counterexample: capacity 0 with ExactSize unset is not a power of two,
yet rte_ring_init returns 0 (success), so the claimed failure condition is
false at count 0. -/
theorem C3_counterexample :
    (¬ ∃ k, (0:Nat) = 2 ^ k) ∧ (0:Nat) &&& RING_F_EXACT_SZ = 0 ∧
    (rte_ring_init memset_zero 0 0).1 = 0 := by
  refine ⟨?_, by decide, by decide⟩
  rintro ⟨k, hk⟩
  exact (Nat.two_pow_pos k).ne' hk.symm

/-- C3 (amended): for counts in uint32 range, rte_ring_init fails with -EINVAL
exactly when exact-size mode is unset and the count is neither zero nor a
power of two or exceeds RTE_RING_SZ_MASK; in every other case (in particular
every count in exact-size mode) it returns 0. -/
theorem C3_init_invalid_iff (r : rte_ring) (count flags : Nat)
    (hcount : count < U32) :
    (((rte_ring_init r count flags).1 = -EINVAL) ↔
      flags &&& RING_F_EXACT_SZ = 0 ∧
        ((count ≠ 0 ∧ ¬ ∃ k, count = 2 ^ k) ∨ RTE_RING_SZ_MASK < count)) ∧
    ((rte_ring_init r count flags).1 ≠ -EINVAL →
      (rte_ring_init r count flags).1 = 0) := by
  have hcond := memsize_cond_iff hcount
  by_cases hex : flags &&& RING_F_EXACT_SZ = 0
  · by_cases hc : (POWEROF2 count = false) ∨ RTE_RING_SZ_MASK < count
    · rw [rte_ring_init_fail r count flags hex hc]
      exact ⟨⟨fun _ => ⟨hex, hcond.mp hc⟩, fun _ => rfl⟩, fun h => absurd rfl h⟩
    · rw [rte_ring_init_default r count flags hex hc]
      refine ⟨⟨fun habs => ?_, fun h => absurd (hcond.mpr h.2) hc⟩, fun _ => rfl⟩
      norm_num [EINVAL] at habs
  · rw [rte_ring_init_exact r count flags hex]
    refine ⟨⟨fun habs => ?_, fun h => absurd h.1 hex⟩, fun _ => rfl⟩
    norm_num [EINVAL] at habs

/-- Witness for C3 (amended) at count 3, flags 0: the call fails. -/
theorem C3_witness :
    (3:Nat) < U32 ∧ (rte_ring_init memset_zero 3 0).1 = -EINVAL := by
  refine ⟨by decide, ?_⟩
  apply (C3_init_invalid_iff memset_zero 3 0 (by decide)).1.mpr
  refine ⟨by decide, Or.inl ⟨by decide, ?_⟩⟩
  rintro ⟨k, hk⟩
  rcases k with _ | _ | k
  · norm_num at hk
  · norm_num at hk
  · have := Nat.two_pow_pos k
    rw [pow_succ, pow_succ] at hk
    omega

/-- C1 counterexample: at requestedCount 2^31 with ExactSize, the uint32
computation in rte_align32pow2 wraps and the stored size is 0, which is not a
power of two strictly greater than the requested count. -/
theorem C1_counterexample :
    (rte_ring_init memset_zero 2147483648 RING_F_EXACT_SZ).2.size = 0 ∧
    ¬ ∃ k, (rte_ring_init memset_zero 2147483648 RING_F_EXACT_SZ).2.size = 2 ^ k ∧
        2147483648 < 2 ^ k := by
  have h0 : (rte_ring_init memset_zero 2147483648 RING_F_EXACT_SZ).2.size = 0 := by
    decide
  refine ⟨h0, ?_⟩
  rintro ⟨k, hk, -⟩
  rw [h0] at hk
  exact (Nat.two_pow_pos k).ne' hk.symm

/-- C1 (amended): for every requestedCount at most 2^31 - 1, initializing in
exact-size mode returns 0 and produces size = the least power of two strictly
greater than requestedCount, mask = size - 1 and capacity = requestedCount. -/
theorem C1_exact_size_layout (r : rte_ring) (count flags : Nat)
    (hcount : count ≤ 2147483647) (hflag : flags &&& RING_F_EXACT_SZ ≠ 0) :
    (rte_ring_init r count flags).1 = 0 ∧
    (∃ k, (rte_ring_init r count flags).2.size = 2 ^ k) ∧
    count < (rte_ring_init r count flags).2.size ∧
    (∀ k, count < 2 ^ k → (rte_ring_init r count flags).2.size ≤ 2 ^ k) ∧
    (rte_ring_init r count flags).2.mask =
      (rte_ring_init r count flags).2.size - 1 ∧
    (rte_ring_init r count flags).2.capacity = count := by
  have hmod : (count + 1) % U32 = count + 1 :=
    Nat.mod_eq_of_lt (lt_of_le_of_lt (show count + 1 ≤ 2147483648 by omega)
      (by decide))
  have halign : rte_align32pow2 ((count + 1) % U32) = 2 ^ count.size := by
    rw [hmod, rte_align32pow2_eq (by omega) (by omega), Nat.add_sub_cancel]
  have hsz31 : count.size ≤ 31 := Nat.size_le.mpr (by
    have : (2:Nat) ^ 31 = 2147483648 := by norm_num
    omega)
  have hszle : 2 ^ count.size ≤ 2147483648 := by
    have h31 : (2:Nat) ^ 31 = 2147483648 := by norm_num
    calc 2 ^ count.size ≤ 2 ^ 31 := Nat.pow_le_pow_right (by norm_num) hsz31
    _ = 2147483648 := h31
  have hszpos : 0 < 2 ^ count.size := Nat.two_pow_pos _
  have hmaskeq : (2 ^ count.size + U32 - 1) % U32 = 2 ^ count.size - 1 :=
    pred_mod_U32 (Nat.two_pow_pos _) (le_trans hszle (by decide))
  have key : rte_ring_init r count flags =
      (0, ⟨flags, 2 ^ count.size, 2 ^ count.size - 1, count,
        ⟨0, 0, flags &&& RING_F_SP_ENQ != 0⟩,
        ⟨0, 0, flags &&& RING_F_SC_DEQ != 0⟩⟩) := by
    rw [rte_ring_init_exact r count flags hflag, halign, hmaskeq]
  rw [key]
  refine ⟨rfl, ⟨count.size, rfl⟩, Nat.lt_size_self count, ?_, rfl, rfl⟩
  intro k hk
  exact Nat.pow_le_pow_right (by norm_num) (Nat.size_le.mpr hk)

/-- Witness for C1 (amended) at requestedCount 100 with ExactSize:
capacity 100 and size 128. -/
theorem C1_witness :
    (100:Nat) ≤ 2147483647 ∧
    (rte_ring_init memset_zero 100 RING_F_EXACT_SZ).1 = 0 ∧
    (rte_ring_init memset_zero 100 RING_F_EXACT_SZ).2.capacity = 100 ∧
    (rte_ring_init memset_zero 100 RING_F_EXACT_SZ).2.size = 128 ∧
    100 < (rte_ring_init memset_zero 100 RING_F_EXACT_SZ).2.size :=
  ⟨by decide,
   (C1_exact_size_layout memset_zero 100 RING_F_EXACT_SZ (by decide) (by decide)).1,
   (C1_exact_size_layout memset_zero 100 RING_F_EXACT_SZ (by decide)
     (by decide)).2.2.2.2.2,
   by decide,
   (C1_exact_size_layout memset_zero 100 RING_F_EXACT_SZ (by decide)
     (by decide)).2.2.1⟩

/-- C4: for every power-of-two count within the size limit,
rte_ring_get_memsize is deterministic (equal results on equal inputs), a
multiple of the cache line size 64, and at least count * sizeof(void *); the
header-size parameter is only required to fit the ssize_t arithmetic. -/
theorem C4_memsize_deterministic_aligned (hdr count : Nat)
    (hhdr : hdr < 281474976710656) (hpow : ∃ k, count = 2 ^ k)
    (hcount : count ≤ RTE_RING_SZ_MASK) :
    rte_ring_get_memsize hdr count = rte_ring_get_memsize hdr count ∧
    (64 : Int) ∣ rte_ring_get_memsize hdr count ∧
    ((count : Int) * 8) ≤ rte_ring_get_memsize hdr count := by
  have hlt : count < U32 := lt_of_le_of_lt hcount (by decide)
  have hP2 : POWEROF2 count = true := (POWEROF2_iff hlt).mpr (Or.inr hpow)
  have hbound : hdr + count * 8 + 63 < 2 ^ 64 := by
    have h64 : (2:Nat) ^ 64 = 18446744073709551616 := by norm_num
    have hU : U32 = 4294967296 := rfl
    omega
  have key : rte_ring_get_memsize hdr count =
      ((hdr + count * 8 + 63 - (hdr + count * 8 + 63) % 64 : Nat) : Int) := by
    unfold rte_ring_get_memsize
    rw [if_neg (show ¬((POWEROF2 count = false) ∨ RTE_RING_SZ_MASK < count) by
      rintro (hf | hgt)
      · rw [hP2] at hf
        exact Bool.noConfusion hf
      · omega)]
    rw [show RTE_CACHE_LINE_SIZE = 64 from rfl, RTE_ALIGN_64 hbound]
  rw [key]
  refine ⟨rfl, ?_, ?_⟩
  · rw [sub_mod_eq_mul_div]
    exact Int.natCast_dvd_natCast.mpr ⟨(hdr + count * 8 + 63) / 64, rfl⟩
  · have h1 : count * 8 ≤ hdr + count * 8 + 63 - (hdr + count * 8 + 63) % 64 :=
      le_trans (Nat.le_add_left _ _) (le_align_sub (hdr + count * 8))
    exact_mod_cast h1

/-- Witness for C4 at hdr 192, count 8. -/
theorem C4_witness :
    (192:Nat) < 281474976710656 ∧ (8:Nat) ≤ RTE_RING_SZ_MASK ∧
    (64 : Int) ∣ rte_ring_get_memsize 192 8 ∧
    ((8:Nat) : Int) * 8 ≤ rte_ring_get_memsize 192 8 :=
  ⟨by decide, by decide,
   (C4_memsize_deterministic_aligned 192 8 (by decide) ⟨3, rfl⟩ (by decide)).2.1,
   (C4_memsize_deterministic_aligned 192 8 (by decide) ⟨3, rfl⟩ (by decide)).2.2⟩

/-- C9: whenever rte_ring_create succeeds, the byte count it allocated covers
the ring header plus all r.size slots of 8 bytes each of the ring it built. -/
theorem C9_create_covers_slots (hdr count flags : Nat)
    (hhdr : hdr < 281474976710656) (hcount : count < U32) :
    ∀ sz r, rte_ring_create hdr count flags = some (sz, r) →
      hdr + r.size * 8 ≤ sz := by
  intro sz r hsome
  have hU : U32 = 4294967296 := rfl
  have h64 : (2:Nat) ^ 64 = 18446744073709551616 := by norm_num
  simp only [rte_ring_create] at hsome
  by_cases hex : flags &&& RING_F_EXACT_SZ = 0
  case neg =>
    rw [if_pos (show (flags &&& RING_F_EXACT_SZ != 0) = true by
      rw [bne_iff_ne]; exact hex)] at hsome
    have hCU : rte_align32pow2 ((count + 1) % U32) < U32 := by
      conv_lhs => rw [rte_align32pow2]
      exact Nat.mod_lt _ (by decide)
    by_cases hc : (POWEROF2 (rte_align32pow2 ((count + 1) % U32)) = false) ∨
        RTE_RING_SZ_MASK < rte_align32pow2 ((count + 1) % U32)
    · rw [rte_ring_get_memsize_bad hdr _ hc,
        if_pos (show (-EINVAL : Int) < 0 by decide)] at hsome
      exact Option.noConfusion hsome
    · rw [rte_ring_get_memsize_ok hdr _ hc,
        if_neg (not_lt.mpr (Int.natCast_nonneg _)),
        rte_ring_init_exact memset_zero count flags hex,
        init_guard_some, Int.toNat_natCast] at hsome
      simp only [Option.some.injEq, Prod.mk.injEq] at hsome
      obtain ⟨hsz, hr⟩ := hsome
      subst hsz
      subst hr
      show hdr + rte_align32pow2 ((count + 1) % U32) * 8 ≤
        RTE_ALIGN (hdr + rte_align32pow2 ((count + 1) % U32) * 8) RTE_CACHE_LINE_SIZE
      rw [show RTE_CACHE_LINE_SIZE = 64 from rfl,
        RTE_ALIGN_64 (show
          hdr + rte_align32pow2 ((count + 1) % U32) * 8 + 63 < 2 ^ 64 by
          omega)]
      exact le_align_sub _
  case pos =>
    rw [if_neg (show ¬((flags &&& RING_F_EXACT_SZ != 0) = true) by
      rw [hex]; decide)] at hsome
    by_cases hc : (POWEROF2 count = false) ∨ RTE_RING_SZ_MASK < count
    · rw [rte_ring_get_memsize_bad hdr count hc,
        if_pos (show (-EINVAL : Int) < 0 by decide)] at hsome
      exact Option.noConfusion hsome
    · rw [rte_ring_get_memsize_ok hdr count hc,
        if_neg (not_lt.mpr (Int.natCast_nonneg _)),
        rte_ring_init_default memset_zero count flags hex hc,
        init_guard_some, Int.toNat_natCast] at hsome
      simp only [Option.some.injEq, Prod.mk.injEq] at hsome
      obtain ⟨hsz, hr⟩ := hsome
      subst hsz
      subst hr
      show hdr + count * 8 ≤ RTE_ALIGN (hdr + count * 8) RTE_CACHE_LINE_SIZE
      rw [show RTE_CACHE_LINE_SIZE = 64 from rfl,
        RTE_ALIGN_64 (show hdr + count * 8 + 63 < 2 ^ 64 by
          omega)]
      exact le_align_sub _

/-- Witness for C9 at hdr 192, count 4, flags 0 (allocates 256 bytes, ring
size 4). -/
theorem C9_witness :
    rte_ring_create 192 4 0 = some (256, (rte_ring_init memset_zero 4 0).2) ∧
    192 + (rte_ring_init memset_zero 4 0).2.size * 8 ≤ 256 :=
  ⟨rfl,
   C9_create_covers_slots 192 4 0 (by decide) (by decide) 256 _ rfl⟩

/-- C7 counterexample: a freshly initialized ring of capacity 1 (count 2,
default mode) rejects the fixed enqueue of [1,2,3,4] with RingFull and the
dequeue of 4 with RingEmpty, so on this ring the sequence does not return
[1,2,3,4]: the claim is false for rings whose capacity is below 4. -/
theorem C7_counterexample :
    (rte_ring_init memset_zero 2 0).2.capacity = 1 ∧
    enqueueFixed { r := (rte_ring_init memset_zero 2 0).2, slots := fun _ => 0 }
      [1, 2, 3, 4] = none ∧
    dequeueFixed { r := (rte_ring_init memset_zero 2 0).2, slots := fun _ => 0 }
      4 = none := by
  refine ⟨by decide, ?_, ?_⟩
  · rfl
  · rfl

/-- C7 (amended): on every freshly initialized well-formed ring of capacity at
least 4, the single-threaded sequential fixed enqueue of [1,2,3,4] followed by
a fixed dequeue of 4 items returns [1,2,3,4] in that order. -/
theorem C7_fifo_enqueue_dequeue (st : RingState) (hfresh : freshRing st)
    (hcap : 4 ≤ st.r.capacity) :
    ∃ st1, enqueueFixed st [1, 2, 3, 4] = some st1 ∧
      ∃ st2, dequeueFixed st1 4 = some ([1, 2, 3, 4], st2) := by
  obtain ⟨⟨m, hsize⟩, hmask, hcapm, hmU, hph, hpt, hch, hct⟩ := hfresh
  have hU : U32 = 4294967296 := rfl
  have h2m : 8 ≤ 2 ^ m := by
    have hm4 : 4 ≤ st.r.mask := le_trans hcap hcapm
    rw [hmask, hsize] at hm4
    rcases Nat.lt_or_ge m 3 with h | h
    · exfalso
      have hle : 2 ^ m ≤ 2 ^ 2 := Nat.pow_le_pow_right (by norm_num) (by omega)
      have h4 : (2:Nat) ^ 2 = 4 := by norm_num
      omega
    · calc (8:Nat) = 2 ^ 3 := by norm_num
        _ ≤ 2 ^ m := Nat.pow_le_pow_right (by norm_num) h
  have hcapU : st.r.capacity < U32 := lt_of_le_of_lt hcapm hmU
  have hsub00 : sub32 st.r.prod.head st.r.cons.tail = 0 := by
    rw [hph, hct]
    unfold sub32
    rw [hU]
  have hfree : sub32 st.r.capacity (sub32 st.r.prod.head st.r.cons.tail) =
      st.r.capacity := by
    rw [hsub00]
    exact sub32_zero_right hcapU
  have hlen : List.length [1, 2, 3, 4] = 4 := rfl
  have h04 : (0 + 4) % U32 = 4 := by rw [hU]
  have henq : enqueueFixed st [1, 2, 3, 4] = some
      { r := { st.r with prod := { st.r.prod with head := 4, tail := 4 } },
        slots := writeSlots st.r.mask st.slots 0 [1, 2, 3, 4] } := by
    simp only [enqueueFixed]
    rw [hfree, hlen]
    rw [if_neg (by omega : ¬(st.r.capacity < 4))]
    rw [hph, h04]
  have hsub40 : sub32 4 st.r.cons.head = 4 := by
    rw [hch]
    unfold sub32
    rw [hU]
  have hidx : ∀ k, k < 8 → slotIndex k st.r.mask = k := by
    intro k hk
    unfold slotIndex
    rw [hmask, hsize, Nat.mod_eq_of_lt (show k < U32 by rw [hU]; omega),
      and_two_pow_sub_one]
    exact Nat.mod_eq_of_lt (by omega)
  have hread : readSlots (writeSlots st.r.mask st.slots 0 [1, 2, 3, 4])
      st.r.mask 0 4 = [1, 2, 3, 4] := by
    have hi0 := hidx 0 (by norm_num)
    have hi1 := hidx 1 (by norm_num)
    have hi2 := hidx 2 (by norm_num)
    have hi3 := hidx 3 (by norm_num)
    norm_num [writeSlots, readSlots, List.range_succ, hi0, hi1, hi2, hi3,
      Function.update]
  refine ⟨_, henq, ?_⟩
  refine ⟨{ r := { st.r with prod := { st.r.prod with head := 4, tail := 4 }, cons := { st.r.cons with head := 4, tail := 4 } }, slots := writeSlots st.r.mask st.slots 0 [1, 2, 3, 4] }, ?_⟩
  simp only [dequeueFixed]
  rw [hsub40]
  rw [if_neg (by norm_num : ¬((4:Nat) < 4))]
  rw [hch, h04, hread]

/-- Witness for C7 (amended) on the concrete ring initialized with count 8 in
default mode (capacity 7) and a zeroed slot array. -/
theorem C7_witness :
    freshRing { r := (rte_ring_init memset_zero 8 0).2, slots := fun _ => 0 } ∧
    4 ≤ (rte_ring_init memset_zero 8 0).2.capacity ∧
    (∃ st1, enqueueFixed
        { r := (rte_ring_init memset_zero 8 0).2, slots := fun _ => 0 }
        [1, 2, 3, 4] = some st1 ∧
      ∃ st2, dequeueFixed st1 4 = some ([1, 2, 3, 4], st2)) := by
  have hf : freshRing
      { r := (rte_ring_init memset_zero 8 0).2, slots := fun _ => 0 } :=
    ⟨⟨3, by decide⟩, by decide, by decide, by decide, by decide, by decide,
      by decide, by decide⟩
  exact ⟨hf, by decide, C7_fifo_enqueue_dequeue _ hf (by decide)⟩
